import Mathlib

/-!
Verification of the large-image tiling engine specification against the
repository sources.

The flat-image (PIL) backend (`server/tilesource/pil.py`) and the LRU cache
metaclass (`server/cache_util/cache.py`) are embedded directly from the
source.  The tile-source base class (level selection, tile iterator, region
normalisation) is not part of the provided sources; only its tests and
callers are.  Those parts are modelled from the specification, with the
concrete numeric behaviour pinned by the expectations recorded in the
repository tests (`plugin_tests/sources_test.py`, `plugin_tests/tiles_test.py`).
All real-valued level arithmetic is embedded exactly over `ℚ` and related to
the specification statement over `ℝ` through `Real.logb`.
-/

/-! ### Flat-image (PIL) tile source, from `server/tilesource/pil.py` -/

/-- Errors raised by `PILFileTileSource.getTile`; each corresponds to a
`TileSourceException` message in the source (an OutOfRange condition). -/
inductive PILTileError where
  | zLayerDoesNotExist
  | xOutsideLayer
  | yOutsideLayer
  deriving DecidableEq, Repr

/-- `PILFileTileSource.getTile` (pil.py lines 127-136): the source has a single
tile which is the entire image; the checks are performed in the order z, x, y. -/
def pilGetTile {T : Type} (pilImage : T) (x y z : ℤ) : Except PILTileError T :=
  if z ≠ 0 then Except.error PILTileError.zLayerDoesNotExist
  else if x ≠ 0 then Except.error PILTileError.xOutsideLayer
  else if y ≠ 0 then Except.error PILTileError.yOutsideLayer
  else Except.ok pilImage

/-- The `maxSize` argument of the PIL source: either a number used for both
sides, or an object with optional width and height entries (pil.py
`getMaxSize`). -/
inductive MaxSizeSpec where
  | num (n : ℤ)
  | dict (w h : Option ℤ)
  deriving DecidableEq, Repr

/-- `getMaxSize` (pil.py lines 39-63), in the configuration without girder
settings: the default maximum is 4096 for each side; a number overrides both
sides, a dictionary overrides each side separately. -/
def getMaxSize (size : Option MaxSizeSpec) : ℤ × ℤ :=
  match size with
  | none => (4096, 4096)
  | some (MaxSizeSpec.num n) => (n, n)
  | some (MaxSizeSpec.dict w h) => (w.getD 4096, h.getD 4096)

/-- Errors raised by `PILFileTileSource.__init__` when validating the image
dimensions (pil.py lines 109-114). -/
inductive PILInitError where
  | invalidSize
  | tooLarge
  deriving DecidableEq, Repr

/-- The dimension validation in `PILFileTileSource.__init__` (pil.py lines
109-114): a nonpositive size is invalid, then a size beyond the configured
maximum raises the TooLarge error. -/
def pilInitCheck (w h : ℤ) (maxSize : Option MaxSizeSpec) : Except PILInitError Unit :=
  if w ≤ 0 ∨ h ≤ 0 then Except.error PILInitError.invalidSize
  else if w > (getMaxSize maxSize).1 ∨ h > (getMaxSize maxSize).2 then
    Except.error PILInitError.tooLarge
  else Except.ok ()

/-! ### LRU cache metaclass, from `server/cache_util/cache.py` -/

/-- The instance cache of `LruCacheMetaclass`: an association list from cache
keys to previously constructed instances.  The bounded eviction of the
underlying `cachetools.LRUCache` is not modelled; the claim under study
concerns the key computation and lookup of `LruCacheMetaclass.__call__`. -/
structure LruCacheState (K I : Type) where
  entries : List (K × I)

/-- `LruCacheMetaclass.__call__` (cache.py lines 76-88): the key is
`strhash(args[0], kwargs)`; a hit returns the cached instance, a miss runs the
underlying constructor and stores the result.  The returned boolean records
whether the constructor ran. -/
def lruMetaclassCall {A R KW K I : Type} [DecidableEq K]
    (strhash : A → KW → K) (ctor : A → List R → KW → I)
    (st : LruCacheState K I) (arg0 : A) (rest : List R) (kw : KW) :
    I × LruCacheState K I × Bool :=
  let key := strhash arg0 kw
  match st.entries.find? (fun e => decide (e.1 = key)) with
  | some e => (e.2, st, false)
  | none =>
      let inst := ctor arg0 rest kw
      (inst, ⟨(key, inst) :: st.entries⟩, true)

/-! ### Claim theorems for the PIL source and the cache -/

/-- Claim C1: for the flat-image (PIL) tile source, `getTile` returns the whole
image exactly when `(x, y, z) = (0, 0, 0)`, and raises a TileSourceException
(OutOfRange) for every other triple: first when `z ≠ 0`, then when `x ≠ 0`,
then when `y ≠ 0`. -/
theorem claim_C1 {T : Type} (pilImage : T) (x y z : ℤ) :
    (pilGetTile pilImage x y z = Except.ok pilImage ↔ (x = 0 ∧ y = 0 ∧ z = 0))
    ∧ (pilGetTile pilImage x y z = Except.error PILTileError.zLayerDoesNotExist ↔ z ≠ 0)
    ∧ (pilGetTile pilImage x y z = Except.error PILTileError.xOutsideLayer ↔ (z = 0 ∧ x ≠ 0))
    ∧ (pilGetTile pilImage x y z = Except.error PILTileError.yOutsideLayer ↔
        (z = 0 ∧ x = 0 ∧ y ≠ 0)) := by
  unfold pilGetTile
  split_ifs with h1 h2 h3 <;> simp_all

/-- Claim C9: constructing the flat-image (PIL) source fails with TooLarge
exactly when the width exceeds the configured maximum width or the height
exceeds the configured maximum height, where the maximum defaults to 4096 per
side and can be overridden by a number (both sides) or a width and height
object (per side). -/
theorem claim_C9 (w h : ℤ) (maxSize : Option MaxSizeSpec) (hw : 0 < w) (hh : 0 < h) :
    (pilInitCheck w h maxSize = Except.error PILInitError.tooLarge ↔
      ((getMaxSize maxSize).1 < w ∨ (getMaxSize maxSize).2 < h))
    ∧ getMaxSize none = (4096, 4096)
    ∧ (∀ n : ℤ, getMaxSize (some (MaxSizeSpec.num n)) = (n, n))
    ∧ (∀ a b : Option ℤ,
        getMaxSize (some (MaxSizeSpec.dict a b)) = (a.getD 4096, b.getD 4096)) := by
  refine ⟨?_, rfl, fun n => rfl, fun a b => rfl⟩
  unfold pilInitCheck
  rw [if_neg (by omega)]
  constructor
  · intro hcase
    by_contra hcon
    rw [if_neg (by omega)] at hcase
    exact Except.noConfusion hcase
  · intro hcase
    rw [if_pos (by omega)]

theorem claim_C9_witness :
    0 < (5000 : ℤ) ∧ 0 < (100 : ℤ) ∧
    (pilInitCheck 5000 100 none = Except.error PILInitError.tooLarge ↔
      ((getMaxSize none).1 < 5000 ∨ (getMaxSize none).2 < 100)) :=
  ⟨by decide, by decide, (claim_C9 5000 100 none (by decide) (by decide)).1⟩

/-- Claim C10: for a class created with `LruCacheMetaclass`, two constructor
calls whose first positional argument and keyword arguments hash equal return
the very same cached instance with the underlying constructor run at most
once, even when the calls differ in their remaining positional arguments,
which are ignored by the cache key `strhash(args[0], kwargs)`. -/
theorem claim_C10 {A R KW K I : Type} [DecidableEq K]
    (strhash : A → KW → K) (ctor : A → List R → KW → I)
    (st : LruCacheState K I) (a a2 : A) (rest rest2 : List R) (kw kw2 : KW)
    (hkey : strhash a kw = strhash a2 kw2) :
    (lruMetaclassCall strhash ctor
        (lruMetaclassCall strhash ctor st a rest kw).2.1 a2 rest2 kw2).1
      = (lruMetaclassCall strhash ctor st a rest kw).1
    ∧ (lruMetaclassCall strhash ctor
        (lruMetaclassCall strhash ctor st a rest kw).2.1 a2 rest2 kw2).2.2 = false := by
  unfold lruMetaclassCall
  rw [← hkey]
  cases hfind : st.entries.find? (fun e => decide (e.1 = strhash a kw)) with
  | some e => simp [hfind]
  | none => simp [hfind]

theorem claim_C10_witness :
    (fun (a : ℕ) (_ : ℕ) => a) 3 5 = (fun (a : ℕ) (_ : ℕ) => a) 3 7
    ∧ ((lruMetaclassCall (fun (a : ℕ) (_ : ℕ) => a)
          (fun (a : ℕ) (r : List ℕ) (k : ℕ) => (a, r, k))
          (lruMetaclassCall (fun (a : ℕ) (_ : ℕ) => a)
            (fun (a : ℕ) (r : List ℕ) (k : ℕ) => (a, r, k))
            ⟨[]⟩ 3 [10] 5).2.1 3 [20] 7).1
        = (lruMetaclassCall (fun (a : ℕ) (_ : ℕ) => a)
            (fun (a : ℕ) (r : List ℕ) (k : ℕ) => (a, r, k)) ⟨[]⟩ 3 [10] 5).1
      ∧ (lruMetaclassCall (fun (a : ℕ) (_ : ℕ) => a)
          (fun (a : ℕ) (r : List ℕ) (k : ℕ) => (a, r, k))
          (lruMetaclassCall (fun (a : ℕ) (_ : ℕ) => a)
            (fun (a : ℕ) (r : List ℕ) (k : ℕ) => (a, r, k))
            ⟨[]⟩ 3 [10] 5).2.1 3 [20] 7).2.2 = false) :=
  ⟨rfl, claim_C10 (fun a _ => a) (fun a r k => (a, r, k)) ⟨[]⟩ 3 3 [10] [20] 5 7 rfl⟩

/-! ### Tile source metadata and level selection

The level-selection code lives in `server/tilesource/base.py`, which is not
among the provided sources; these definitions are modelled from the
specification (section 4.2), with concrete behaviour pinned by
`plugin_tests/sources_test.py` (`testMagnification`).  The continuous level is
`(L - 1) + log2 factor`; all log2 comparisons are embedded exactly over `ℚ`
using `Int.log` and `Int.clog`. -/

/-- Modelled from the spec: the per-source metadata of the missing tile-source
base class (`sizeX`, `sizeY`, native tile geometry, level count `L`, native
magnification and calibration). -/
structure TileSource where
  sizeX : ℕ
  sizeY : ℕ
  tileWidth : ℕ
  tileHeight : ℕ
  levels : ℕ
  magnification : ℚ
  mm_x : ℚ
  deriving DecidableEq

/-- The 23021 x 23162 SVS test source: native magnification 40, `mm_x`
0.000252, 8 levels (sources_test.py, testMagnification). -/
def svsSource : TileSource :=
  { sizeX := 23021, sizeY := 23162, tileWidth := 256, tileHeight := 256,
    levels := 8, magnification := 40, mm_x := 63 / 250000 }

/-- The 58368 x 12288 ptif test source: native magnification 40, 9 levels
(tiles_test.py, testTilesFromPTIF; sources_test.py, testTileIterator). -/
def ptifSource : TileSource :=
  { sizeX := 58368, sizeY := 12288, tileWidth := 256, tileHeight := 256,
    levels := 9, magnification := 40, mm_x := 1 / 4000 }

/-- The rounding policy of level selection: nearest level (the default per the
repository tests), or the optional ceil and floor policies. -/
inductive LevelRounding where
  | nearest
  | ceilPolicy
  | floorPolicy
  deriving DecidableEq, Repr

/-- Modelled from the spec: the nearest integer to `log2 f`, computed exactly
over `ℚ`.  `Int.log 2 f` is the floor of `log2 f`; the fractional part is at
least one half exactly when `2 ^ (2 k + 1) ≤ f ^ 2`. -/
def roundLog2 (f : ℚ) : ℤ :=
  if f ^ 2 < (2:ℚ) ^ (2 * Int.log 2 f + 1) then Int.log 2 f else Int.log 2 f + 1

/-- Modelled from the spec: the nearest integer to `10000 * log2 f`, used for
the four-decimal value returned when rounding is disabled. -/
def roundLog2Scaled (f : ℚ) : ℤ :=
  if f ^ 20000 < (2:ℚ) ^ (2 * Int.log 2 (f ^ 10000) + 1) then Int.log 2 (f ^ 10000)
  else Int.log 2 (f ^ 10000) + 1

/-- Modelled from the spec: clamp a level into `[0, L-1]`. -/
def clampLevel (levels : ℕ) (k : ℤ) : ℤ := max 0 (min ((levels : ℤ) - 1) k)

/-- Modelled from the spec: level selection from a resolution factor
`f = target / native` (section 4.2 of the specification).  The continuous
level is `ℓ = (L - 1) + log2 f`.  With `exact` set, a level is returned only
when `|ℓ - round ℓ| < 0.01` (embedded exactly: `2 ^ (100 k - 1) < f ^ 100 <
2 ^ (100 k + 1)` for `k = round (log2 f)`) and the rounded level is within
`[0, L-1]`; otherwise the level is rounded per policy and clamped into
`[0, L-1]`.  The default policy is the nearest level, as pinned by the
repository test `getLevelForMagnification(25) == 6` (ceil would give 7). -/
def levelFromFactor (S : TileSource) (f : ℚ) (exactFlag : Bool) (r : LevelRounding) : Option ℤ :=
  if exactFlag then
    if (2:ℚ) ^ (100 * roundLog2 f - 1) < f ^ 100
        ∧ f ^ 100 < (2:ℚ) ^ (100 * roundLog2 f + 1)
        ∧ 0 ≤ (S.levels : ℤ) - 1 + roundLog2 f
        ∧ (S.levels : ℤ) - 1 + roundLog2 f ≤ (S.levels : ℤ) - 1 then
      some ((S.levels : ℤ) - 1 + roundLog2 f)
    else none
  else
    some (clampLevel S.levels ((S.levels : ℤ) - 1 +
      match r with
      | LevelRounding.nearest => roundLog2 f
      | LevelRounding.ceilPolicy => Int.clog 2 f
      | LevelRounding.floorPolicy => Int.log 2 f))

/-- Modelled from the spec: `getLevelForMagnification` of the missing
tile-source base class.  The factor is `magnification / native` when a
magnification is given, `native mm_x / mm_x` when a calibration is given, and
with neither the base level `L - 1` is returned. -/
def getLevelForMagnification (S : TileSource) (m mm : Option ℚ) (exactFlag : Bool)
    (r : LevelRounding) : Option ℤ :=
  match m, mm with
  | none, none => some ((S.levels : ℤ) - 1)
  | some mag, _ => levelFromFactor S (mag / S.magnification) exactFlag r
  | none, some v => levelFromFactor S (S.mm_x / v) exactFlag r

/-- Modelled from the spec: level selection with rounding disabled returns the
continuous level rounded to four decimal places (the repository test expects
`6.3219` for magnification 25) and clamped into `[0, L-1]`. -/
def levelNoRounding (S : TileSource) (f : ℚ) : ℚ :=
  max 0 (min ((S.levels : ℚ) - 1) ((S.levels : ℚ) - 1 + (roundLog2Scaled f : ℚ) / 10000))

/-- Modelled from the spec: `getLevelForMagnification(m, rounding=False)`. -/
def magLevelNoRounding (S : TileSource) (m : ℚ) : ℚ :=
  levelNoRounding S (m / S.magnification)

/-! ### Bridge lemmas between exact rational log comparisons and `Real.logb` -/

/-- Uniqueness characterisation of `Int.log` base 2 over `ℚ`. -/
theorem int_log_eq (q : ℚ) (k : ℤ) (h1 : (2:ℚ) ^ k ≤ q) (h2 : q < (2:ℚ) ^ (k + 1)) :
    Int.log 2 q = k := by
  have hcast : ((2:ℕ) : ℚ) = (2:ℚ) := by norm_num
  have hq : 0 < q := lt_of_lt_of_le (zpow_pos (by norm_num) k) h1
  refine le_antisymm ?_ ?_
  · by_contra hcon
    push_neg at hcon
    have hle : (2:ℚ) ^ (k + 1) ≤ (2:ℚ) ^ (Int.log 2 q) :=
      zpow_le_zpow_right₀ (by norm_num) (by omega)
    have hself : ((2:ℕ) : ℚ) ^ (Int.log 2 q) ≤ q := Int.zpow_log_le_self (by norm_num) hq
    rw [hcast] at hself
    linarith
  · have hmono : Int.log 2 ((2:ℚ) ^ k) ≤ Int.log 2 q :=
      Int.log_mono_right (zpow_pos (by norm_num) k) h1
    rw [← hcast, Int.log_zpow (by norm_num)] at hmono
    exact hmono

/-- Uniqueness characterisation of `Int.clog` base 2 over `ℚ`. -/
theorem int_clog_eq (q : ℚ) (k : ℤ) (h1 : (2:ℚ) ^ (k - 1) < q) (h2 : q ≤ (2:ℚ) ^ k) :
    Int.clog 2 q = k := by
  have hcast : ((2:ℕ) : ℚ) = (2:ℚ) := by norm_num
  have hq : 0 < q := lt_trans (zpow_pos (by norm_num) (k - 1)) h1
  refine le_antisymm ?_ ?_
  · have hmono : Int.clog 2 q ≤ Int.clog 2 ((2:ℚ) ^ k) := Int.clog_mono_right hq h2
    rw [← hcast, Int.clog_zpow (by norm_num)] at hmono
    exact hmono
  · by_contra hcon
    push_neg at hcon
    have hle : (2:ℚ) ^ (Int.clog 2 q) ≤ (2:ℚ) ^ (k - 1) :=
      zpow_le_zpow_right₀ (by norm_num) (by omega)
    have hself : q ≤ ((2:ℕ) : ℚ) ^ (Int.clog 2 q) := Int.self_le_zpow_clog (by norm_num) q
    rw [hcast] at hself
    linarith

/-- `Int.log` base 2 of an exact power of two. -/
theorem int_log_two_zpow (z : ℤ) : Int.log 2 ((2:ℚ) ^ z) = z := by
  have hcast : ((2:ℕ) : ℚ) = (2:ℚ) := by norm_num
  rw [← hcast, Int.log_zpow (by norm_num)]

/-- `Int.clog` base 2 of an exact power of two. -/
theorem int_clog_two_zpow (z : ℤ) : Int.clog 2 ((2:ℚ) ^ z) = z := by
  have hcast : ((2:ℕ) : ℚ) = (2:ℚ) := by norm_num
  rw [← hcast, Int.clog_zpow (by norm_num)]

/-- A natural power of an integer power collapses to a single integer power. -/
theorem zpow_pow_eq (a : ℚ) (z : ℤ) (n : ℕ) : (a ^ z) ^ n = a ^ (z * n) := by
  rw [← zpow_natCast (a ^ z) n, ← zpow_mul]

/-- Strict upper comparison bridge: `f ^ n < 2 ^ b` over `ℚ` states exactly
that `log2 f < b / n` over `ℝ`. -/
theorem pow_lt_zpow_iff_logb (f : ℚ) (hf : 0 < f) (n : ℕ) (hn : 0 < n) (b : ℤ) :
    f ^ n < (2:ℚ) ^ b ↔ Real.logb 2 (f : ℝ) < (b : ℝ) / (n : ℝ) := by
  have hfR : (0:ℝ) < (f : ℝ) := by exact_mod_cast hf
  have hnR : (0:ℝ) < (n : ℝ) := by exact_mod_cast hn
  rw [lt_div_iff₀ hnR,
    show Real.logb 2 (f : ℝ) * (n : ℝ) = Real.logb 2 ((f : ℝ) ^ n) from by
      rw [Real.logb_pow]; ring,
    Real.logb_lt_iff_lt_rpow one_lt_two (pow_pos hfR n), Real.rpow_intCast,
    show (2:ℝ) = ((2:ℚ) : ℝ) from by norm_num]
  exact_mod_cast Iff.rfl

/-- Weak upper comparison bridge. -/
theorem pow_le_zpow_iff_logb (f : ℚ) (hf : 0 < f) (n : ℕ) (hn : 0 < n) (b : ℤ) :
    f ^ n ≤ (2:ℚ) ^ b ↔ Real.logb 2 (f : ℝ) ≤ (b : ℝ) / (n : ℝ) := by
  have hfR : (0:ℝ) < (f : ℝ) := by exact_mod_cast hf
  have hnR : (0:ℝ) < (n : ℝ) := by exact_mod_cast hn
  rw [le_div_iff₀ hnR,
    show Real.logb 2 (f : ℝ) * (n : ℝ) = Real.logb 2 ((f : ℝ) ^ n) from by
      rw [Real.logb_pow]; ring,
    Real.logb_le_iff_le_rpow one_lt_two (pow_pos hfR n), Real.rpow_intCast,
    show (2:ℝ) = ((2:ℚ) : ℝ) from by norm_num]
  exact_mod_cast Iff.rfl

/-- Weak lower comparison bridge. -/
theorem zpow_le_pow_iff_logb (f : ℚ) (hf : 0 < f) (n : ℕ) (hn : 0 < n) (b : ℤ) :
    (2:ℚ) ^ b ≤ f ^ n ↔ (b : ℝ) / (n : ℝ) ≤ Real.logb 2 (f : ℝ) := by
  have hfR : (0:ℝ) < (f : ℝ) := by exact_mod_cast hf
  have hnR : (0:ℝ) < (n : ℝ) := by exact_mod_cast hn
  rw [div_le_iff₀ hnR,
    show Real.logb 2 (f : ℝ) * (n : ℝ) = Real.logb 2 ((f : ℝ) ^ n) from by
      rw [Real.logb_pow]; ring,
    Real.le_logb_iff_rpow_le one_lt_two (pow_pos hfR n), Real.rpow_intCast,
    show (2:ℝ) = ((2:ℚ) : ℝ) from by norm_num]
  exact_mod_cast Iff.rfl

/-- Strict lower comparison bridge. -/
theorem zpow_lt_pow_iff_logb (f : ℚ) (hf : 0 < f) (n : ℕ) (hn : 0 < n) (b : ℤ) :
    (2:ℚ) ^ b < f ^ n ↔ (b : ℝ) / (n : ℝ) < Real.logb 2 (f : ℝ) := by
  have hfR : (0:ℝ) < (f : ℝ) := by exact_mod_cast hf
  have hnR : (0:ℝ) < (n : ℝ) := by exact_mod_cast hn
  rw [div_lt_iff₀ hnR,
    show Real.logb 2 (f : ℝ) * (n : ℝ) = Real.logb 2 ((f : ℝ) ^ n) from by
      rw [Real.logb_pow]; ring,
    Real.lt_logb_iff_rpow_lt one_lt_two (pow_pos hfR n), Real.rpow_intCast,
    show (2:ℝ) = ((2:ℚ) : ℝ) from by norm_num]
  exact_mod_cast Iff.rfl

/-- `Int.log` base 2 over `ℚ` is the floor of the real `log2`. -/
theorem int_log_eq_floor (f : ℚ) (hf : 0 < f) :
    Int.log 2 f = ⌊Real.logb 2 (f : ℝ)⌋ := by
  have hcast : ((2:ℕ) : ℚ) = (2:ℚ) := by norm_num
  symm
  rw [Int.floor_eq_iff]
  constructor
  · have h1 : (2:ℚ) ^ (Int.log 2 f) ≤ f ^ 1 := by
      rw [pow_one]
      have := Int.zpow_log_le_self (b := 2) (by norm_num) hf
      rwa [hcast] at this
    have := (zpow_le_pow_iff_logb f hf 1 one_pos _).mp h1
    simpa using this
  · have h2 : f ^ 1 < (2:ℚ) ^ (Int.log 2 f + 1) := by
      rw [pow_one]
      have := Int.lt_zpow_succ_log_self (b := 2) (by norm_num) f
      rwa [hcast] at this
    have := (pow_lt_zpow_iff_logb f hf 1 one_pos _).mp h2
    simp only [div_one] at this
    push_cast at this ⊢
    linarith

/-- `Int.clog` base 2 over `ℚ` is the ceiling of the real `log2`. -/
theorem int_clog_eq_ceil (f : ℚ) (hf : 0 < f) :
    Int.clog 2 f = ⌈Real.logb 2 (f : ℝ)⌉ := by
  have hcast : ((2:ℕ) : ℚ) = (2:ℚ) := by norm_num
  symm
  rw [Int.ceil_eq_iff]
  constructor
  · have h1 : (2:ℚ) ^ (Int.clog 2 f - 1) < f ^ 1 := by
      rw [pow_one]
      have := Int.zpow_pred_clog_lt_self (b := 2) (by norm_num) hf
      rwa [hcast] at this
    have := (zpow_lt_pow_iff_logb f hf 1 one_pos _).mp h1
    simp only [div_one] at this
    push_cast at this ⊢
    linarith
  · have h2 : f ^ 1 ≤ (2:ℚ) ^ (Int.clog 2 f) := by
      rw [pow_one]
      have := Int.self_le_zpow_clog (b := 2) (by norm_num) f
      rwa [hcast] at this
    have := (pow_le_zpow_iff_logb f hf 1 one_pos _).mp h2
    simpa using this

/-- `roundLog2` over `ℚ` is the nearest integer to the real `log2`. -/
theorem roundLog2_eq_round (f : ℚ) (hf : 0 < f) :
    roundLog2 f = round (Real.logb 2 (f : ℝ)) := by
  have hfloor : Int.log 2 f = ⌊Real.logb 2 (f : ℝ)⌋ := int_log_eq_floor f hf
  rw [round_eq]
  unfold roundLog2
  by_cases hc : f ^ 2 < (2:ℚ) ^ (2 * Int.log 2 f + 1)
  · rw [if_pos hc]
    have hxlt := (pow_lt_zpow_iff_logb f hf 2 two_pos _).mp hc
    have hxge : ((Int.log 2 f : ℤ) : ℝ) ≤ Real.logb 2 (f : ℝ) := by
      rw [hfloor]; exact Int.floor_le _
    symm
    rw [Int.floor_eq_iff]
    push_cast at hxlt ⊢
    constructor
    · linarith
    · linarith
  · rw [if_neg hc]
    push_neg at hc
    have hxge := (zpow_le_pow_iff_logb f hf 2 two_pos _).mp hc
    have hxlt : Real.logb 2 (f : ℝ) < ((Int.log 2 f : ℤ) : ℝ) + 1 := by
      rw [hfloor]; exact Int.lt_floor_add_one _
    symm
    rw [Int.floor_eq_iff]
    push_cast at hxge ⊢
    constructor
    · linarith
    · linarith

/-- `roundLog2` of an exact power of two. -/
theorem roundLog2_two_zpow (z : ℤ) : roundLog2 ((2:ℚ) ^ z) = z := by
  unfold roundLog2
  rw [int_log_two_zpow, zpow_pow_eq]
  rw [if_pos ((zpow_lt_zpow_iff_right₀ (by norm_num : (1:ℚ) < 2)).mpr (by omega))]

/-- `roundLog2Scaled` of an exact power of two. -/
theorem roundLog2Scaled_two_zpow (z : ℤ) : roundLog2Scaled ((2:ℚ) ^ z) = 10000 * z := by
  unfold roundLog2Scaled
  rw [zpow_pow_eq, zpow_pow_eq, int_log_two_zpow]
  rw [if_pos ((zpow_lt_zpow_iff_right₀ (by norm_num : (1:ℚ) < 2)).mpr (by omega))]
  ring

/-! ### Definitional reductions and concrete evaluations of level selection -/

/-- Non-exact nearest-level selection, unfolded. -/
theorem getLevel_nearest_def (S : TileSource) (m : ℚ) :
    getLevelForMagnification S (some m) none false LevelRounding.nearest
      = some (clampLevel S.levels ((S.levels : ℤ) - 1 + roundLog2 (m / S.magnification))) := rfl

/-- Non-exact ceil-policy selection, unfolded. -/
theorem getLevel_ceil_def (S : TileSource) (m : ℚ) :
    getLevelForMagnification S (some m) none false LevelRounding.ceilPolicy
      = some (clampLevel S.levels ((S.levels : ℤ) - 1 + Int.clog 2 (m / S.magnification))) := rfl

/-- Non-exact floor-policy selection, unfolded. -/
theorem getLevel_floor_def (S : TileSource) (m : ℚ) :
    getLevelForMagnification S (some m) none false LevelRounding.floorPolicy
      = some (clampLevel S.levels ((S.levels : ℤ) - 1 + Int.log 2 (m / S.magnification))) := rfl

/-- Exact selection, unfolded. -/
theorem getLevel_exact_def (S : TileSource) (m : ℚ) (r : LevelRounding) :
    getLevelForMagnification S (some m) none true r
      = if (2:ℚ) ^ (100 * roundLog2 (m / S.magnification) - 1) < (m / S.magnification) ^ 100
            ∧ (m / S.magnification) ^ 100 < (2:ℚ) ^ (100 * roundLog2 (m / S.magnification) + 1)
            ∧ 0 ≤ (S.levels : ℤ) - 1 + roundLog2 (m / S.magnification)
            ∧ (S.levels : ℤ) - 1 + roundLog2 (m / S.magnification) ≤ (S.levels : ℤ) - 1 then
          some ((S.levels : ℤ) - 1 + roundLog2 (m / S.magnification))
        else none := rfl

theorem round_shift (z : ℤ) (x : ℝ) : round ((z : ℝ) + x) = z + round x := round_int_add x z

theorem ceil_shift (z : ℤ) (x : ℝ) : ⌈(z : ℝ) + x⌉ = z + ⌈x⌉ := by
  rw [add_comm ((z : ℝ)) x, Int.ceil_add_int, add_comm]

theorem floor_shift (z : ℤ) (x : ℝ) : ⌊(z : ℝ) + x⌋ = z + ⌊x⌋ := Int.floor_int_add z x

theorem factor_25 : ((25:ℚ) / svsSource.magnification) = (5:ℚ) / 8 := by norm_num [svsSource]

theorem factor_20 : ((20:ℚ) / svsSource.magnification) = (2:ℚ) ^ (-1:ℤ) := by
  norm_num [svsSource]

theorem int_log_58 : Int.log 2 ((5:ℚ) / 8) = -1 :=
  int_log_eq _ _ (by norm_num) (by norm_num)

theorem int_clog_58 : Int.clog 2 ((5:ℚ) / 8) = 0 :=
  int_clog_eq _ _ (by norm_num) (by norm_num)

theorem roundLog2_58 : roundLog2 ((5:ℚ) / 8) = -1 := by
  unfold roundLog2
  rw [int_log_58, if_pos (by norm_num)]

/-! ### Claim theorems for level selection -/

/-- Claim C2 (amended): for every source and every non-exact scale request,
level selection by default returns the nearest level (round of the continuous
level), with optional ceil or floor policies, and the result is clamped into
`[0, L-1]`. -/
theorem claim_C2 (S : TileSource) (m : ℚ) (hm : 0 < m) (hmag : 0 < S.magnification)
    (hL : 1 ≤ S.levels) :
    getLevelForMagnification S (some m) none false LevelRounding.nearest
      = some (clampLevel S.levels
          (round ((S.levels : ℝ) - 1 + Real.logb 2 ((m / S.magnification : ℚ) : ℝ))))
    ∧ getLevelForMagnification S (some m) none false LevelRounding.ceilPolicy
      = some (clampLevel S.levels
          (⌈(S.levels : ℝ) - 1 + Real.logb 2 ((m / S.magnification : ℚ) : ℝ)⌉))
    ∧ getLevelForMagnification S (some m) none false LevelRounding.floorPolicy
      = some (clampLevel S.levels
          (⌊(S.levels : ℝ) - 1 + Real.logb 2 ((m / S.magnification : ℚ) : ℝ)⌋))
    ∧ (∀ k : ℤ, 0 ≤ clampLevel S.levels k ∧ clampLevel S.levels k ≤ (S.levels : ℤ) - 1) := by
  have hf : 0 < m / S.magnification := div_pos hm hmag
  have hcastL : (S.levels : ℝ) - 1 = (((S.levels : ℤ) - 1 : ℤ) : ℝ) := by push_cast; ring
  refine ⟨?_, ?_, ?_, ?_⟩
  · rw [getLevel_nearest_def, hcastL, round_shift, roundLog2_eq_round _ hf]
  · rw [getLevel_ceil_def, hcastL, ceil_shift, int_clog_eq_ceil _ hf]
  · rw [getLevel_floor_def, hcastL, floor_shift, int_log_eq_floor _ hf]
  · intro k
    simp only [clampLevel]
    exact ⟨le_max_left 0 _, max_le (by omega) (min_le_left _ _)⟩

theorem claim_C2_witness :
    0 < (3:ℚ) ∧ 0 < svsSource.magnification ∧ 1 ≤ svsSource.levels ∧
    getLevelForMagnification svsSource (some 3) none false LevelRounding.nearest
      = some (clampLevel svsSource.levels
          (round ((svsSource.levels : ℝ) - 1
            + Real.logb 2 ((3 / svsSource.magnification : ℚ) : ℝ)))) :=
  ⟨by norm_num, by norm_num [svsSource], by norm_num [svsSource],
    (claim_C2 svsSource 3 (by norm_num) (by norm_num [svsSource])
      (by norm_num [svsSource])).1⟩

/-- Claim C2 counterexample: on the 8-level, native-40 source, the default
policy at magnification 25 selects level 6 whose resolution 20 is below the
target, while the ceil policy (smallest level with resolution at least the
target) selects level 7; so the default is not the ceil policy. -/
theorem claim_C2_counterexample :
    getLevelForMagnification svsSource (some 25) none false LevelRounding.nearest = some 6
    ∧ getLevelForMagnification svsSource (some 25) none false LevelRounding.ceilPolicy = some 7
    ∧ svsSource.magnification * (2:ℚ) ^ ((6:ℤ) - ((svsSource.levels : ℤ) - 1)) < 25 := by
  refine ⟨?_, ?_, by norm_num [svsSource]⟩
  · rw [getLevel_nearest_def, factor_25, roundLog2_58]
    decide
  · rw [getLevel_ceil_def, factor_25, int_clog_58]
    decide

/-- Claim C3 (amended): for every source and every magnification request with
exact set, a pyramid level is returned precisely when the continuous level
`ℓ = (L - 1) + log2 (m / native)` satisfies `|ℓ - round ℓ| < 0.01` and the
rounded level lies within `[0, L-1]`; otherwise the request yields no level. -/
theorem claim_C3 (S : TileSource) (m : ℚ) (r : LevelRounding) (hm : 0 < m)
    (hmag : 0 < S.magnification) :
    (getLevelForMagnification S (some m) none true r).isSome = true
    ↔ (|((S.levels : ℝ) - 1 + Real.logb 2 ((m / S.magnification : ℚ) : ℝ))
          - (round ((S.levels : ℝ) - 1 + Real.logb 2 ((m / S.magnification : ℚ) : ℝ)) : ℝ)|
        < 1 / 100
      ∧ 0 ≤ round ((S.levels : ℝ) - 1 + Real.logb 2 ((m / S.magnification : ℚ) : ℝ))
      ∧ round ((S.levels : ℝ) - 1 + Real.logb 2 ((m / S.magnification : ℚ) : ℝ))
          ≤ (S.levels : ℤ) - 1) := by
  have hf : 0 < m / S.magnification := div_pos hm hmag
  set x := Real.logb 2 ((m / S.magnification : ℚ) : ℝ) with hxdef
  have hcastL : (S.levels : ℝ) - 1 = (((S.levels : ℤ) - 1 : ℤ) : ℝ) := by push_cast; ring
  have hshift : round ((S.levels : ℝ) - 1 + x) = (S.levels : ℤ) - 1 + round x := by
    rw [hcastL]; exact round_int_add x _
  have hround : roundLog2 (m / S.magnification) = round x := by
    rw [hxdef]; exact roundLog2_eq_round _ hf
  have hb1 := pow_lt_zpow_iff_logb (m / S.magnification) hf 100 (by norm_num)
    (100 * round x + 1)
  have hb2 := zpow_lt_pow_iff_logb (m / S.magnification) hf 100 (by norm_num)
    (100 * round x - 1)
  rw [← hxdef] at hb1 hb2
  rw [getLevel_exact_def, hround, hshift,
    show ((S.levels : ℝ) - 1 + x) - (((S.levels : ℤ) - 1 + round x : ℤ) : ℝ)
      = x - (round x : ℝ) from by push_cast; ring,
    abs_sub_lt_iff]
  push_cast at hb1 hb2
  constructor
  · intro hsome
    by_cases hc : (2:ℚ) ^ (100 * round x - 1) < (m / S.magnification) ^ 100
        ∧ (m / S.magnification) ^ 100 < (2:ℚ) ^ (100 * round x + 1)
        ∧ 0 ≤ (S.levels : ℤ) - 1 + round x
        ∧ (S.levels : ℤ) - 1 + round x ≤ (S.levels : ℤ) - 1
    · obtain ⟨h1, h2, h3, h4⟩ := hc
      have hx2 := hb1.mp h2
      have hx1 := hb2.mp h1
      exact ⟨⟨by linarith, by linarith⟩, h3, h4⟩
    · rw [if_neg hc] at hsome
      exact absurd hsome (by simp)
  · rintro ⟨⟨ha1, ha2⟩, h3, h4⟩
    rw [if_pos ⟨hb2.mpr (by linarith), hb1.mpr (by linarith), h3, h4⟩]
    rfl

theorem claim_C3_witness :
    0 < (20:ℚ) ∧ 0 < svsSource.magnification ∧
    ((getLevelForMagnification svsSource (some 20) none true LevelRounding.nearest).isSome = true
    ↔ (|((svsSource.levels : ℝ) - 1
            + Real.logb 2 ((20 / svsSource.magnification : ℚ) : ℝ))
          - (round ((svsSource.levels : ℝ) - 1
            + Real.logb 2 ((20 / svsSource.magnification : ℚ) : ℝ)) : ℝ)| < 1 / 100
      ∧ 0 ≤ round ((svsSource.levels : ℝ) - 1
            + Real.logb 2 ((20 / svsSource.magnification : ℚ) : ℝ))
      ∧ round ((svsSource.levels : ℝ) - 1
            + Real.logb 2 ((20 / svsSource.magnification : ℚ) : ℝ))
          ≤ (svsSource.levels : ℤ) - 1)) :=
  ⟨by norm_num, by norm_num [svsSource],
    claim_C3 svsSource 20 LevelRounding.nearest (by norm_num) (by norm_num [svsSource])⟩

theorem roundLog2_two : roundLog2 (2:ℚ) = 1 := by
  have h := roundLog2_two_zpow 1
  rwa [zpow_one] at h

/-- Claim C3 counterexample: at magnification 80 on the 8-level, native-40
source, the continuous level is exactly 8, so `|ℓ - round ℓ| = 0 < 0.01`, yet
the exact request returns no level (the rounded level 8 is out of range). -/
theorem claim_C3_counterexample :
    getLevelForMagnification svsSource (some 80) none true LevelRounding.nearest = none
    ∧ |((svsSource.levels : ℝ) - 1 + Real.logb 2 ((80 / svsSource.magnification : ℚ) : ℝ))
        - (round ((svsSource.levels : ℝ) - 1
            + Real.logb 2 ((80 / svsSource.magnification : ℚ) : ℝ)) : ℝ)| < 1 / 100 := by
  have hfq : ((80:ℚ) / svsSource.magnification) = (2:ℚ) := by norm_num [svsSource]
  have hlogb : Real.logb 2 ((80 / svsSource.magnification : ℚ) : ℝ) = 1 := by
    rw [hfq]
    norm_num
  constructor
  · rw [getLevel_exact_def, hfq, roundLog2_two]
    rw [if_neg (by rintro ⟨-, -, -, h4⟩; simp [svsSource] at h4)]
  · rw [hlogb, show (svsSource.levels : ℝ) = 8 from by norm_num [svsSource]]
    norm_num [round_eq]

/-- Level selection for magnification 20 on the SVS source, default policy. -/
theorem svs_level20_default :
    getLevelForMagnification svsSource (some 20) none false LevelRounding.nearest = some 6 := by
  rw [getLevel_nearest_def, factor_20, roundLog2_two_zpow]
  decide

/-- Level selection for magnification 20 on the SVS source with exact set:
the continuous level is exactly 6, so the level is returned. -/
theorem svs_level20_exact :
    getLevelForMagnification svsSource (some 20) none true LevelRounding.nearest = some 6 := by
  rw [getLevel_exact_def, factor_20, roundLog2_two_zpow]
  have hc1 : (2:ℚ) ^ (100 * (-1:ℤ) - 1) < ((2:ℚ) ^ (-1:ℤ)) ^ 100 := by
    rw [zpow_pow_eq]
    exact (zpow_lt_zpow_iff_right₀ (by norm_num : (1:ℚ) < 2)).mpr (by omega)
  have hc2 : ((2:ℚ) ^ (-1:ℤ)) ^ 100 < (2:ℚ) ^ (100 * (-1:ℤ) + 1) := by
    rw [zpow_pow_eq]
    exact (zpow_lt_zpow_iff_right₀ (by norm_num : (1:ℚ) < 2)).mpr (by omega)
  rw [if_pos ⟨hc1, hc2, by decide, by decide⟩]
  decide

/-- Level selection for magnification 20 on the SVS source with rounding
disabled: the continuous level is exactly 6. -/
theorem svs_level20_norounding : magLevelNoRounding svsSource 20 = 6 := by
  unfold magLevelNoRounding levelNoRounding
  rw [factor_20, roundLog2Scaled_two_zpow]
  norm_num [svsSource]

/-- Claim C4 (amended): on the 23021 x 23162 source with `mm_x = 0.000252`,
native magnification 40 and 8 levels, `level_for_magnification(20)` returns 6;
with exact set it also returns 6 (the continuous level is exactly 6); and with
rounding disabled it returns 6.0. -/
theorem claim_C4 :
    getLevelForMagnification svsSource (some 20) none false LevelRounding.nearest = some 6
    ∧ getLevelForMagnification svsSource (some 20) none true LevelRounding.nearest = some 6
    ∧ magLevelNoRounding svsSource 20 = 6 :=
  ⟨svs_level20_default, svs_level20_exact, svs_level20_norounding⟩

/-- Claim C4 counterexample: contrary to the claim, the exact request at
magnification 20 returns level 6 (not NoMatchingLevel), and the unrounded
level is 6.0 (not 6.3219). -/
theorem claim_C4_counterexample :
    getLevelForMagnification svsSource (some 20) none true LevelRounding.nearest = some 6
    ∧ some (6:ℤ) ≠ none
    ∧ magLevelNoRounding svsSource 20 = 6
    ∧ (6:ℚ) ≠ 63219 / 10000 :=
  ⟨svs_level20_exact, by decide, svs_level20_norounding, by norm_num⟩

/-! ### Tile iterator grid

Modelled from the spec (section 4.7): the iterator walks the inclusive tile
index range row-major, Y outer and X inner. -/

/-- Modelled from the spec: the row-major tile index grid with `w` columns and
`h` rows (Y outer, X inner), from the missing tile iterator of
`server/tilesource/base.py`. -/
def tileGridNat (w h : ℕ) : List (ℕ × ℕ) :=
  (List.range h).flatMap (fun j => (List.range w).map (fun i => (i, j)))

/-- Modelled from the spec: the grid of `(level_x, level_y)` indices starting
at `(x0, y0)`, row-major. -/
def gridList (x0 y0 : ℤ) (w h : ℕ) : List (ℤ × ℤ) :=
  (tileGridNat w h).map (fun p => (x0 + (p.1 : ℤ), y0 + (p.2 : ℤ)))

/-- Modelled from the spec: a `tile_position` request reduces the iterator
sequence to the tile at that position, or to the empty sequence when the
position is out of range. -/
def tileAtPosition (x0 y0 : ℤ) (w h : ℕ) (pos : ℕ) : List (ℤ × ℤ) :=
  match (gridList x0 y0 w h)[pos]? with
  | some t => [t]
  | none => []

theorem tileGridNat_succ (w h : ℕ) :
    tileGridNat w (h + 1) = tileGridNat w h ++ (List.range w).map (fun i => (i, h)) := by
  unfold tileGridNat
  rw [List.range_succ, List.flatMap_append]
  simp

theorem tileGridNat_length (w h : ℕ) : (tileGridNat w h).length = h * w := by
  induction h with
  | zero => simp [tileGridNat]
  | succ n ih =>
      rw [tileGridNat_succ, List.length_append, ih, List.length_map, List.length_range]
      ring

theorem tileGridNat_getElem (w h i : ℕ) :
    (tileGridNat w h)[i]? = if i < h * w then some (i % w, i / w) else none := by
  induction h with
  | zero => simp [tileGridNat]
  | succ n ih =>
      rw [tileGridNat_succ, List.getElem?_append, tileGridNat_length]
      have hmul : (n + 1) * w = n * w + w := Nat.succ_mul n w
      have hcm : w * n = n * w := Nat.mul_comm w n
      by_cases hc : i < n * w
      · rw [if_pos hc, ih, if_pos hc, if_pos (by omega)]
      · rw [if_neg hc, List.getElem?_map]
        by_cases hc2 : i < (n + 1) * w
        · have hw : 0 < w := by omega
          obtain ⟨r, hr, rfl⟩ : ∃ r, r < w ∧ i = r + w * n :=
            ⟨i - n * w, by omega, by omega⟩
          rw [List.getElem?_range (show (r + w * n) - n * w < w from by omega), if_pos hc2]
          have h1 : (r + w * n) - n * w = r := by omega
          have h2 : (r + w * n) % w = r := by
            rw [Nat.add_mul_mod_self_left, Nat.mod_eq_of_lt hr]
          have h3 : (r + w * n) / w = n := by
            rw [Nat.add_mul_div_left _ _ hw, Nat.div_eq_of_lt hr, Nat.zero_add]
          rw [h1, h2, h3]
          rfl
        · rw [if_neg hc2, List.getElem?_eq_none (by rw [List.length_range]; omega)]
          rfl

theorem tileGridNat_mem (w h : ℕ) (p : ℕ × ℕ) :
    p ∈ tileGridNat w h ↔ p.1 < w ∧ p.2 < h := by
  unfold tileGridNat
  simp only [List.mem_flatMap, List.mem_map, List.mem_range]
  constructor
  · rintro ⟨j, hj, i, hi, rfl⟩
    exact ⟨hi, hj⟩
  · rintro ⟨h1, h2⟩
    exact ⟨p.2, h2, p.1, h1, rfl⟩

theorem tileGridNat_nodup (w h : ℕ) : (tileGridNat w h).Nodup := by
  induction h with
  | zero => exact List.Pairwise.nil
  | succ n ih =>
      rw [tileGridNat_succ]
      refine List.Nodup.append ih ?_ ?_
      · refine List.Nodup.map ?_ (List.nodup_range w)
        intro a b hab
        simpa using congrArg Prod.fst hab
      · intro p hp1 hp2
        rw [tileGridNat_mem] at hp1
        simp only [List.mem_map, List.mem_range] at hp2
        obtain ⟨i, hi, rfl⟩ := hp2
        simp at hp1

/-- A member of a duplicate-free list is counted exactly once. -/
theorem count_one_of_nodup {α : Type} [BEq α] [LawfulBEq α] {l : List α} {a : α}
    (d : l.Nodup) (h : a ∈ l) : l.count a = 1 := by
  induction l with
  | nil => cases h
  | cons b t ih =>
      have hd := List.nodup_cons.mp d
      rw [List.count_cons]
      rcases List.mem_cons.mp h with rfl | hmem
      · rw [List.count_eq_zero.mpr hd.1]
        simp
      · have hne : a ≠ b := fun he => hd.1 (he ▸ hmem)
        rw [ih hd.2 hmem]
        simp [hne, hne.symm]

theorem tileGridNat_count (w h : ℕ) (p : ℕ × ℕ) :
    (tileGridNat w h).count p = if p.1 < w ∧ p.2 < h then 1 else 0 := by
  by_cases hp : p.1 < w ∧ p.2 < h
  · rw [if_pos hp]
    exact count_one_of_nodup (tileGridNat_nodup w h) ((tileGridNat_mem w h p).mpr hp)
  · rw [if_neg hp, List.count_eq_zero, tileGridNat_mem]
    exact hp

theorem gridList_getElem (x0 y0 : ℤ) (w h : ℕ) (i : ℕ) :
    (gridList x0 y0 w h)[i]?
      = if i < h * w then some (x0 + ((i % w : ℕ) : ℤ), y0 + ((i / w : ℕ) : ℤ)) else none := by
  unfold gridList
  rw [List.getElem?_map, tileGridNat_getElem]
  by_cases hc : i < h * w
  · rw [if_pos hc, if_pos hc]
    rfl
  · rw [if_neg hc, if_neg hc]
    rfl

theorem gridList_nodup (x0 y0 : ℤ) (w h : ℕ) : (gridList x0 y0 w h).Nodup := by
  refine List.Nodup.map ?_ (tileGridNat_nodup w h)
  intro q1 q2 hq
  have e1 := congrArg Prod.fst hq
  have e2 := congrArg Prod.snd hq
  simp only [add_right_inj, Nat.cast_inj] at e1 e2
  exact Prod.ext e1 e2

theorem gridList_mem (x0 y0 : ℤ) (w h : ℕ) (p : ℤ × ℤ) :
    p ∈ gridList x0 y0 w h
      ↔ x0 ≤ p.1 ∧ p.1 < x0 + w ∧ y0 ≤ p.2 ∧ p.2 < y0 + h := by
  unfold gridList
  rw [List.mem_map]
  constructor
  · rintro ⟨q, hq, rfl⟩
    rw [tileGridNat_mem] at hq
    refine ⟨?_, ?_, ?_, ?_⟩ <;> simp <;> omega
  · intro hp
    refine ⟨((p.1 - x0).toNat, (p.2 - y0).toNat), ?_, ?_⟩
    · rw [tileGridNat_mem]
      constructor <;> simp <;> omega
    · have e1 : ((p.1 - x0).toNat : ℤ) = p.1 - x0 := Int.toNat_of_nonneg (by omega)
      have e2 : ((p.2 - y0).toNat : ℤ) = p.2 - y0 := Int.toNat_of_nonneg (by omega)
      refine Prod.ext ?_ ?_
      · simp only [e1]
        omega
      · simp only [e2]
        omega

theorem gridList_count (x0 y0 : ℤ) (w h : ℕ) (p : ℤ × ℤ) :
    (gridList x0 y0 w h).count p
      = if x0 ≤ p.1 ∧ p.1 < x0 + w ∧ y0 ≤ p.2 ∧ p.2 < y0 + h then 1 else 0 := by
  by_cases hp : x0 ≤ p.1 ∧ p.1 < x0 + w ∧ y0 ≤ p.2 ∧ p.2 < y0 + h
  · rw [if_pos hp]
    exact count_one_of_nodup (gridList_nodup x0 y0 w h) ((gridList_mem x0 y0 w h p).mpr hp)
  · rw [if_neg hp, List.count_eq_zero, gridList_mem]
    exact hp

/-- Claim C5: for every region and scale, the tile iterator emits a set of
`(level_x, level_y)` indices exactly equal to the inclusive grid
`[x0..x1] x [y0..y1]`, each pair exactly once, in row-major order (Y outer, X
inner); and `tile_position = i` reduces the sequence to exactly the i-th tile
under that ordering, or to the empty sequence if `i` is out of range. -/
theorem claim_C5 (x0 x1 y0 y1 : ℤ) (hx : x0 ≤ x1) (hy : y0 ≤ y1) :
    (∀ p : ℤ × ℤ,
      (gridList x0 y0 (x1 + 1 - x0).toNat (y1 + 1 - y0).toNat).count p
        = if x0 ≤ p.1 ∧ p.1 ≤ x1 ∧ y0 ≤ p.2 ∧ p.2 ≤ y1 then 1 else 0)
    ∧ (∀ i : ℕ, i < (y1 + 1 - y0).toNat * (x1 + 1 - x0).toNat →
        (gridList x0 y0 (x1 + 1 - x0).toNat (y1 + 1 - y0).toNat)[i]?
          = some (x0 + ((i % (x1 + 1 - x0).toNat : ℕ) : ℤ),
              y0 + ((i / (x1 + 1 - x0).toNat : ℕ) : ℤ)))
    ∧ (∀ i : ℕ, i < (y1 + 1 - y0).toNat * (x1 + 1 - x0).toNat →
        tileAtPosition x0 y0 (x1 + 1 - x0).toNat (y1 + 1 - y0).toNat i
          = [(x0 + ((i % (x1 + 1 - x0).toNat : ℕ) : ℤ),
              y0 + ((i / (x1 + 1 - x0).toNat : ℕ) : ℤ))])
    ∧ (∀ i : ℕ, (y1 + 1 - y0).toNat * (x1 + 1 - x0).toNat ≤ i →
        tileAtPosition x0 y0 (x1 + 1 - x0).toNat (y1 + 1 - y0).toNat i = []) := by
  refine ⟨?_, ?_, ?_, ?_⟩
  · intro p
    rw [gridList_count]
    have hxw : x0 + ((x1 + 1 - x0).toNat : ℤ) = x1 + 1 := by omega
    have hyh : y0 + ((y1 + 1 - y0).toNat : ℤ) = y1 + 1 := by omega
    by_cases hp : x0 ≤ p.1 ∧ p.1 ≤ x1 ∧ y0 ≤ p.2 ∧ p.2 ≤ y1
    · rw [if_pos (by omega), if_pos hp]
    · rw [if_neg (by omega), if_neg hp]
  · intro i hi
    rw [gridList_getElem, if_pos hi]
  · intro i hi
    unfold tileAtPosition
    rw [gridList_getElem, if_pos hi]
  · intro i hi
    unfold tileAtPosition
    rw [gridList_getElem, if_neg (by omega)]

theorem claim_C5_witness :
    (0:ℤ) ≤ 2 ∧ (0:ℤ) ≤ 1
    ∧ (gridList 0 0 3 2).count (1, 1) = 1
    ∧ tileAtPosition 0 0 3 2 4 = [(1, 1)] :=
  ⟨by decide, by decide,
    ((claim_C5 0 2 0 1 (by decide) (by decide)).1 (1, 1)).trans (by decide),
    ((claim_C5 0 2 0 1 (by decide) (by decide)).2.2.1 4 (by decide)).trans (by decide)⟩

/-! ### Full-image tile iterator at a requested magnification -/

/-- A record emitted by the tile iterator: tile indices at the selected level
and the actual pixel extents (edge tiles are cropped). -/
structure TileRec where
  level_x : ℕ
  level_y : ℕ
  width : ℕ
  height : ℕ
  deriving DecidableEq, Repr

/-- Modelled from the spec: the pixel width of a level, from the missing
tile-source base class.  Level `l` is downsampled from the base by
`2 ^ (L - 1 - l)`; the level extent is the integer part of the scaled base
extent, matching the repository test expectations (edge tile width 61 at
magnification 5 on the 23021-wide source). -/
def levelWidth (S : TileSource) (lvl : ℕ) : ℕ := S.sizeX / 2 ^ (S.levels - 1 - lvl)

/-- Modelled from the spec: the pixel height of a level. -/
def levelHeight (S : TileSource) (lvl : ℕ) : ℕ := S.sizeY / 2 ^ (S.levels - 1 - lvl)

/-- Modelled from the spec: the tile iterator over the whole image at a
requested magnification (sections 4.7 and 4.8 of the specification).  The
level is the smallest one whose resolution is at least the target (ceil
policy, as the region assembler never upsamples from a lower-resolution
level); the inclusive tile grid covers the level rectangle; every tile
reports its actual extents, cropped at the right and bottom edges. -/
def tileIteratorFullAtMag (S : TileSource) (m : ℚ) : List TileRec :=
  match getLevelForMagnification S (some m) none false LevelRounding.ceilPolicy with
  | none => []
  | some lvl =>
      (tileGridNat ((levelWidth S lvl.toNat + S.tileWidth - 1) / S.tileWidth)
          ((levelHeight S lvl.toNat + S.tileHeight - 1) / S.tileHeight)).map (fun p =>
        { level_x := p.1, level_y := p.2,
          width := min S.tileWidth (levelWidth S lvl.toNat - p.1 * S.tileWidth),
          height := min S.tileHeight (levelHeight S lvl.toNat - p.2 * S.tileHeight) })

/-- Level selected for magnification 5 on the SVS source (factor 1/8). -/
theorem svs_level_mag5 :
    getLevelForMagnification svsSource (some 5) none false LevelRounding.ceilPolicy
      = some 4 := by
  rw [getLevel_ceil_def,
    show ((5:ℚ) / svsSource.magnification) = (2:ℚ) ^ (-3:ℤ) from by norm_num [svsSource],
    int_clog_two_zpow]
  decide

/-- Level selected for magnification 5 on the ptif source (factor 1/8). -/
theorem ptif_level_mag5 :
    getLevelForMagnification ptifSource (some 5) none false LevelRounding.ceilPolicy
      = some 5 := by
  rw [getLevel_ceil_def,
    show ((5:ℚ) / ptifSource.magnification) = (2:ℚ) ^ (-3:ℤ) from by norm_num [ptifSource],
    int_clog_two_zpow]
  decide

/-- Level selected for magnification 2.5 on the ptif source (factor 1/16). -/
theorem ptif_level_mag25 :
    getLevelForMagnification ptifSource (some (5/2)) none false LevelRounding.ceilPolicy
      = some 4 := by
  rw [getLevel_ceil_def,
    show ((5/2:ℚ) / ptifSource.magnification) = (2:ℚ) ^ (-4:ℤ) from by norm_num [ptifSource],
    int_clog_two_zpow]
  decide

set_option maxRecDepth 40000

/-- Claim C6 (amended): iterating the 23021 x 23162 source (native
magnification 40, 8 levels, 256 x 256 tiles) at magnification 5 over the
whole image yields exactly 144 tiles; every tile in the rightmost column has
width 61, every tile in the bottom row has height 79, and all other extents
are 256. -/
theorem claim_C6 :
    (tileIteratorFullAtMag svsSource 5).length = 144
    ∧ (tileIteratorFullAtMag svsSource 5).all (fun t =>
        ((t.width == if t.level_x < 11 then 256 else 61)
          && (t.height == if t.level_y < 11 then 256 else 79))) = true := by
  unfold tileIteratorFullAtMag
  rw [svs_level_mag5]
  constructor
  · decide
  · decide

/-- Claim C6 counterexample: the repository source of size 58368 x 12288 (the
ptif, 9 levels, native 40) iterated at magnification 5 yields 174 tiles, not
144; at magnification 2.5 it yields the 45 tiles asserted by the repository
test, confirming these source parameters. -/
theorem claim_C6_counterexample :
    (tileIteratorFullAtMag ptifSource 5).length = 174
    ∧ (174:ℕ) ≠ 144
    ∧ (tileIteratorFullAtMag ptifSource (5/2)).length = 45 := by
  refine ⟨?_, by decide, ?_⟩
  · unfold tileIteratorFullAtMag
    rw [ptif_level_mag5]
    decide
  · unfold tileIteratorFullAtMag
    rw [ptif_level_mag25]
    decide

/-! ### Region normalisation and region output -/

/-- A region request in base pixels: `left`, `top` and `width`/`height`
(section 3 of the specification, Region Descriptor). -/
structure RegionSpec where
  left : ℤ
  top : ℤ
  width : ℤ
  height : ℤ
  deriving DecidableEq, Repr

/-- A normalised region in base pixels with
`0 ≤ left ≤ right ≤ sizeX` and `0 ≤ top ≤ bottom ≤ sizeY`. -/
structure NormalizedRegion where
  left : ℤ
  top : ℤ
  right : ℤ
  bottom : ℤ
  deriving DecidableEq, Repr

/-- Modelled from the spec: a negative offset is interpreted relative to the
opposite edge (right or bottom), from the missing region handling of
`server/tilesource/base.py`. -/
def adjustOffset (v : ℤ) (size : ℕ) : ℤ := if v < 0 then v + size else v

/-- Modelled from the spec: clamp a coordinate into `[0, size]`. -/
def clampCoord (v : ℤ) (size : ℕ) : ℤ := max 0 (min v (size : ℤ))

/-- Modelled from the spec: normalise a Region Descriptor to a base-pixel
rectangle: interpret negative offsets from the opposite edge, then clamp so
that `0 ≤ left ≤ right ≤ sizeX` and analogously for Y. -/
def normalizeRegion (S : TileSource) (r : RegionSpec) : NormalizedRegion :=
  { left := clampCoord (adjustOffset r.left S.sizeX) S.sizeX,
    top := clampCoord (adjustOffset r.top S.sizeY) S.sizeY,
    right := max (clampCoord (adjustOffset r.left S.sizeX) S.sizeX)
      (clampCoord (adjustOffset r.left S.sizeX + r.width) S.sizeX),
    bottom := max (clampCoord (adjustOffset r.top S.sizeY) S.sizeY)
      (clampCoord (adjustOffset r.top S.sizeY + r.height) S.sizeY) }

/-- Modelled from the spec: the deterministic output of `get_region` at base
scale, as the row-major list of base-pixel coordinates covered by the
normalised region (the pixel values are a fixed function of these
coordinates, so byte-identical output is coordinate-list equality). -/
def regionCoords (S : TileSource) (r : RegionSpec) : List (ℤ × ℤ) :=
  gridList (normalizeRegion S r).left (normalizeRegion S r).top
    ((normalizeRegion S r).right - (normalizeRegion S r).left).toNat
    ((normalizeRegion S r).bottom - (normalizeRegion S r).top).toNat

theorem gridList_zero_w (x0 y0 : ℤ) (h : ℕ) : gridList x0 y0 0 h = [] := by
  have hgrid : tileGridNat 0 h = [] := by
    induction h with
    | zero => rfl
    | succ n ih => rw [tileGridNat_succ, ih]; rfl
  unfold gridList
  rw [hgrid]
  rfl

theorem gridList_zero_h (x0 y0 : ℤ) (w : ℕ) : gridList x0 y0 w 0 = [] := rfl

/-- Claim C7 (amended): for every base-pixel region request with
`0 ≤ left < sizeX` and `0 ≤ top < sizeY`, requesting the same region with
`left - sizeX` and `top - sizeY` (negative offsets interpreted from the
right and bottom edges) produces identical output. -/
theorem claim_C7 (S : TileSource) (r : RegionSpec)
    (hl0 : 0 ≤ r.left) (hl1 : r.left < S.sizeX) (ht0 : 0 ≤ r.top) (ht1 : r.top < S.sizeY) :
    regionCoords S { r with left := r.left - S.sizeX, top := r.top - S.sizeY }
      = regionCoords S r := by
  obtain ⟨a, b, c, d⟩ := r
  dsimp only at hl0 hl1 ht0 ht1 ⊢
  unfold regionCoords normalizeRegion
  dsimp only
  rw [show adjustOffset (a - S.sizeX) S.sizeX = adjustOffset a S.sizeX from by
      unfold adjustOffset
      rw [if_pos (by omega), if_neg (by omega)]
      ring,
    show adjustOffset (b - S.sizeY) S.sizeY = adjustOffset b S.sizeY from by
      unfold adjustOffset
      rw [if_pos (by omega), if_neg (by omega)]
      ring]

/-- A small concrete source for witnesses and counterexamples of the region
claims. -/
def tinySource : TileSource :=
  { sizeX := 4, sizeY := 4, tileWidth := 4, tileHeight := 4,
    levels := 1, magnification := 40, mm_x := 1 / 1000 }

theorem claim_C7_witness :
    (0:ℤ) ≤ 1 ∧ (1:ℤ) < (tinySource.sizeX : ℤ) ∧ (0:ℤ) ≤ 0 ∧ (0:ℤ) < (tinySource.sizeY : ℤ)
    ∧ regionCoords tinySource
        { left := 1 - (tinySource.sizeX : ℤ), top := 0 - (tinySource.sizeY : ℤ),
          width := 2, height := 2 }
      = regionCoords tinySource { left := 1, top := 0, width := 2, height := 2 } :=
  ⟨by decide, by decide, by decide, by decide,
    claim_C7 tinySource { left := 1, top := 0, width := 2, height := 2 }
      (by decide) (by decide) (by decide) (by decide)⟩

/-- Claim C7 counterexample: with `left = sizeX` (allowed by the claim, which
only requires `0 ≤ left`), the shifted request `left - sizeX = 0` is no
longer negative, is taken as an absolute offset, and yields a different
region than the original empty one. -/
theorem claim_C7_counterexample :
    regionCoords tinySource
        { left := 4 - (tinySource.sizeX : ℤ), top := 0 - (tinySource.sizeY : ℤ),
          width := 2, height := 2 }
      ≠ regionCoords tinySource { left := 4, top := 0, width := 2, height := 2 } := by
  decide

/-- Claim C8: for every region request whose normalised region has zero area,
`get_region` succeeds with empty output rather than raising an error. -/
theorem claim_C8 (S : TileSource) (r : RegionSpec)
    (hz : (normalizeRegion S r).right - (normalizeRegion S r).left = 0
        ∨ (normalizeRegion S r).bottom - (normalizeRegion S r).top = 0) :
    regionCoords S r = [] := by
  unfold regionCoords
  rcases hz with hz | hz
  · rw [hz]
    exact gridList_zero_w _ _ _
  · rw [hz]
    exact gridList_zero_h _ _ _

theorem claim_C8_witness :
    ((normalizeRegion tinySource { left := 0, top := 0, width := 0, height := 5 }).right
        - (normalizeRegion tinySource { left := 0, top := 0, width := 0, height := 5 }).left = 0
      ∨ (normalizeRegion tinySource { left := 0, top := 0, width := 0, height := 5 }).bottom
        - (normalizeRegion tinySource { left := 0, top := 0, width := 0, height := 5 }).top = 0)
    ∧ regionCoords tinySource { left := 0, top := 0, width := 0, height := 5 } = [] :=
  ⟨by decide, claim_C8 tinySource { left := 0, top := 0, width := 0, height := 5 } (by decide)⟩
